import Mathlib

/-!
Verification of databento-es-options: diagnostics aggregation, canonical-mapping
reconciliation, diagnostic windowing, calendar synchronization, IMM expiry dates,
futures symbol parsing, and roll detection, embedded from the Python sources.
-/

namespace Diagnostics

/-- Check status, from `run_post_ingest_diagnostics.py`: `Status = str  # PASS | WARN | FAIL | SKIP | ERROR`. -/
inductive Status where
  | PASS | WARN | FAIL | SKIP | ERROR
deriving DecidableEq, Repr

/-- Check severity, from `run_post_ingest_diagnostics.py`: `Severity = str  # HARD | WARN | INFO`. -/
inductive Severity where
  | HARD | WARN | INFO
deriving DecidableEq, Repr

/-- Embeds the `CheckResult` dataclass (`check_id`, `name`, `status`, `severity`,
`message`; the `metrics` dict is not needed by any aggregation). -/
structure CheckResult where
  check_id : String
  name : String
  status : Status
  severity : Severity
  message : String
deriving DecidableEq, Repr

/-- `hard_failures` in `_finalize_report`:
`sum(1 for c in checks if c.status in ("FAIL", "ERROR") and c.severity == "HARD")`. -/
def hard_failures (checks : List CheckResult) : Nat :=
  checks.countP fun c =>
    (c.status = Status.FAIL ∨ c.status = Status.ERROR) ∧ c.severity = Severity.HARD

/-- `warnings` in `_finalize_report`:
`sum(1 for c in checks if c.status == "WARN" or (c.status in ("FAIL", "ERROR") and c.severity == "WARN"))`. -/
def warnings (checks : List CheckResult) : Nat :=
  checks.countP fun c =>
    c.status = Status.WARN ∨
      ((c.status = Status.FAIL ∨ c.status = Status.ERROR) ∧ c.severity = Severity.WARN)

/-- `overall` in `_finalize_report`:
`"FAIL" if hard_failures else ("WARN" if warnings else "PASS")` (Python int truthiness). -/
def overall_status (checks : List CheckResult) : Status :=
  if hard_failures checks ≠ 0 then Status.FAIL
  else if warnings checks ≠ 0 then Status.WARN
  else Status.PASS

/-- Exit code computed in `_run`:
`exit_code = 2 if report["summary"]["hard_failures"] > 0 else 0`. -/
def exit_code (checks : List CheckResult) : Nat :=
  if hard_failures checks > 0 then 2 else 0

/-- A check that counts toward `hard_failures`. -/
def IsHardIssue (c : CheckResult) : Prop :=
  (c.status = Status.FAIL ∨ c.status = Status.ERROR) ∧ c.severity = Severity.HARD

/-- A check that counts toward `warnings`. -/
def IsWarnIssue (c : CheckResult) : Prop :=
  c.status = Status.WARN ∨
    ((c.status = Status.FAIL ∨ c.status = Status.ERROR) ∧ c.severity = Severity.WARN)

instance : DecidablePred IsHardIssue := fun c => by unfold IsHardIssue; infer_instance

instance : DecidablePred IsWarnIssue := fun c => by unfold IsWarnIssue; infer_instance

theorem hard_failures_pos_iff (checks : List CheckResult) :
    hard_failures checks ≠ 0 ↔ ∃ c ∈ checks, IsHardIssue c := by
  rw [hard_failures]
  constructor
  · intro h
    have := List.countP_pos_iff.mp (Nat.pos_of_ne_zero h)
    simpa [IsHardIssue] using this
  · rintro ⟨c, hc, hp⟩
    have hpos : 0 < checks.countP (fun c =>
        (c.status = Status.FAIL ∨ c.status = Status.ERROR) ∧ c.severity = Severity.HARD) :=
      List.countP_pos_iff.mpr ⟨c, hc, decide_eq_true (by simpa [IsHardIssue] using hp)⟩
    omega

theorem warnings_pos_iff (checks : List CheckResult) :
    warnings checks ≠ 0 ↔ ∃ c ∈ checks, IsWarnIssue c := by
  rw [warnings]
  constructor
  · intro h
    have := List.countP_pos_iff.mp (Nat.pos_of_ne_zero h)
    simpa [IsWarnIssue] using this
  · rintro ⟨c, hc, hp⟩
    have hpos : 0 < checks.countP (fun c =>
        c.status = Status.WARN ∨
          ((c.status = Status.FAIL ∨ c.status = Status.ERROR) ∧ c.severity = Severity.WARN)) :=
      List.countP_pos_iff.mpr ⟨c, hc, decide_eq_true (by simpa [IsWarnIssue] using hp)⟩
    omega

/-- One step of the check loop in `_run`: evaluating a check either yields a
`CheckResult` that is appended to `checks`, or raises an exception
(modelled by `Except.error` carrying the exception message). -/
abbrev CheckStep := Except String CheckResult

/-- Sequential evaluation of the checks in `_run`. The body of `_run` is wrapped in
`try ... finally con.close()` with no `except` clause, so an exception raised while
evaluating one check propagates immediately: no later check is evaluated and no
list of results is produced. -/
def run_checks : List CheckStep → Except String (List CheckResult)
  | [] => Except.ok []
  | step :: rest =>
    match step with
    | Except.error e => Except.error e
    | Except.ok c =>
      match run_checks rest with
      | Except.error e => Except.error e
      | Except.ok cs => Except.ok (c :: cs)

/-- The tail of `_run`: on success the report is finalized from the accumulated
checks and `exit_code = 2 if report["summary"]["hard_failures"] > 0 else 0` is
returned with it. -/
def run_diagnostics (steps : List CheckStep) : Except String (Nat × List CheckResult) :=
  match run_checks steps with
  | Except.error e => Except.error e
  | Except.ok checks => Except.ok (exit_code checks, checks)

/-- `main`: `try: exit_code, _ = _run(); return exit_code; except Exception: ...; return 1`. -/
def main_exit (steps : List CheckStep) : Nat :=
  match run_diagnostics steps with
  | Except.ok (code, _) => code
  | Except.error _ => 1

end Diagnostics

namespace Canonical

/-- One normalized entry of the canonical-series mapping, as produced by
`_canonical_config_expected` (from `configs/canonical_series.yaml`) and
`_canonical_config_actual` (from `dim_canonical_series`): the fields
`contract_series`, `description` and `optional` for one root. -/
structure SeriesSpec where
  contract_series : Option String
  description : Option String
  optional : Bool
deriving DecidableEq, Repr

/-- A canonical-mapping state: the Python dict keyed by root, modelled as an
association list. -/
abbrev CanonicalMap := List (String × SeriesSpec)

/-- The roots (dict keys) of a canonical-mapping state. -/
def roots (m : CanonicalMap) : List String := m.map Prod.fst

/-- One field mismatch recorded by `_diff_canonical_config`:
`diffs[k] = {"expected": exp.get(k), "actual": act.get(k)}` for
`k in ("contract_series", "optional")`. -/
inductive FieldDiff where
  | contract_series (expected actual : Option String)
  | optionalFlag (expected actual : Bool)
deriving DecidableEq, Repr

/-- The per-root field comparison in `_diff_canonical_config`: the loop
`for k in ("contract_series", "optional")` records a diff for each field whose
value differs (`description` is deliberately not compared). -/
def field_diffs (exp act : SeriesSpec) : List FieldDiff :=
  (if exp.contract_series ≠ act.contract_series
    then [FieldDiff.contract_series exp.contract_series act.contract_series] else []) ++
  (if exp.optional ≠ act.optional
    then [FieldDiff.optionalFlag exp.optional act.optional] else [])

/-- The result of `_diff_canonical_config`. -/
structure CanonicalDiff where
  missing_in_db : List String
  extra_in_db : List String
  mismatches : List (String × List FieldDiff)
deriving DecidableEq, Repr

/-- Loop body of `_diff_canonical_config` for one shared root: look both specs up
and record `(root, diffs)` when `diffs` is non-empty. -/
def mismatch_entry (expected actual : CanonicalMap) (r : String) :
    Option (String × List FieldDiff) :=
  match List.lookup r expected, List.lookup r actual with
  | some e, some a =>
    let d := field_diffs e a
    if d.isEmpty then none else some (r, d)
  | _, _ => none

/-- `_diff_canonical_config`: root-set differences (`sorted(exp_roots - act_roots)`,
`sorted(act_roots - exp_roots)`) and per-root field mismatches over
`sorted(exp_roots & act_roots)`. -/
def diff_canonical_config (expected actual : CanonicalMap) : CanonicalDiff :=
  let exp_roots := (roots expected).dedup
  let act_roots := (roots actual).dedup
  let missing_in_db :=
    (exp_roots.filter (fun r => ¬ r ∈ act_roots)).mergeSort (fun a b => a ≤ b)
  let extra_in_db :=
    (act_roots.filter (fun r => ¬ r ∈ exp_roots)).mergeSort (fun a b => a ≤ b)
  let shared := (exp_roots.filter (fun r => r ∈ act_roots)).mergeSort (fun a b => a ≤ b)
  let mismatches := shared.filterMap (mismatch_entry expected actual)
  ⟨missing_in_db, extra_in_db, mismatches⟩

/-- `has_diff = bool(diff["missing_in_db"] or diff["extra_in_db"] or diff["mismatches"])`
in `_run`. -/
def has_diff (d : CanonicalDiff) : Bool :=
  !d.missing_in_db.isEmpty || !d.extra_in_db.isEmpty || !d.mismatches.isEmpty

/-- The `canonical.mapping.sync` check appended in `_run` when
`dim_canonical_series` exists. -/
def canonical_mapping_check (expected actual : CanonicalMap) : Diagnostics.CheckResult :=
  let d := diff_canonical_config expected actual
  if has_diff d then
    ⟨"canonical.mapping.sync", "Canonical mapping matches configs/canonical_series.yaml",
      Diagnostics.Status.FAIL, Diagnostics.Severity.HARD,
      "dim_canonical_series does not match config"⟩
  else
    ⟨"canonical.mapping.sync", "Canonical mapping matches configs/canonical_series.yaml",
      Diagnostics.Status.PASS, Diagnostics.Severity.HARD, "ok"⟩

/-- Agreement of the two states root-for-root: same root set, and for each root
present in both, the `contract_series` value and the `optional` flag coincide. -/
def Agrees (expected actual : CanonicalMap) : Prop :=
  (∀ r, r ∈ roots expected ↔ r ∈ roots actual) ∧
  (∀ r e a, List.lookup r expected = some e → List.lookup r actual = some a →
    e.contract_series = a.contract_series ∧ e.optional = a.optional)

theorem lookup_mem_roots {m : CanonicalMap} {r : String} {e : SeriesSpec}
    (h : List.lookup r m = some e) : r ∈ roots m := by
  induction m with
  | nil => simp [List.lookup] at h
  | cons p rest ih =>
    obtain ⟨k, v⟩ := p
    by_cases hbe : r = k
    · simp [roots, hbe]
    · have hb : (r == k) = false := beq_eq_false_iff_ne.mpr hbe
      rw [List.lookup, hb] at h
      exact List.mem_cons_of_mem _ (ih h)

theorem lookup_isSome_of_mem_roots {m : CanonicalMap} {r : String}
    (h : r ∈ roots m) : ∃ e, List.lookup r m = some e := by
  induction m with
  | nil => simp [roots] at h
  | cons p rest ih =>
    obtain ⟨k, v⟩ := p
    by_cases hbe : r = k
    · exact ⟨v, by simp [List.lookup, hbe]⟩
    · have : r ∈ roots rest := by
        rcases List.mem_cons.mp h with h1 | h1
        · exact absurd h1 hbe
        · exact h1
      obtain ⟨e, he⟩ := ih this
      have hb : (r == k) = false := beq_eq_false_iff_ne.mpr hbe
      exact ⟨e, by rw [List.lookup, hb]; exact he⟩

theorem field_diffs_isEmpty_iff (e a : SeriesSpec) :
    (field_diffs e a).isEmpty = true ↔
      (e.contract_series = a.contract_series ∧ e.optional = a.optional) := by
  unfold field_diffs
  by_cases h1 : e.contract_series = a.contract_series <;>
    by_cases h2 : e.optional = a.optional <;> simp [h1, h2]

theorem mismatch_entry_eq_some {expected actual : CanonicalMap} {r x : String}
    {d : List FieldDiff} (h : mismatch_entry expected actual r = some (x, d)) :
    r = x ∧ ∃ e a, List.lookup r expected = some e ∧ List.lookup r actual = some a ∧
      field_diffs e a = d ∧ (field_diffs e a).isEmpty = false := by
  cases hle : List.lookup r expected with
  | none => simp [mismatch_entry, hle] at h
  | some e =>
    cases hla : List.lookup r actual with
    | none => simp [mismatch_entry, hle, hla] at h
    | some a =>
      simp only [mismatch_entry, hle, hla] at h
      by_cases hd : (field_diffs e a).isEmpty
      · simp [hd] at h
      · rw [if_neg hd] at h
        have h' := Option.some.inj h
        have hx : r = x := congrArg Prod.fst h'
        have hdd : field_diffs e a = d := congrArg Prod.snd h'
        exact ⟨hx, e, a, rfl, rfl, hdd, Bool.eq_false_iff.mpr hd⟩

theorem mem_missing_iff (expected actual : CanonicalMap) (r : String) :
    r ∈ (diff_canonical_config expected actual).missing_in_db ↔
      (r ∈ roots expected ∧ ¬ r ∈ roots actual) := by
  simp [diff_canonical_config, List.mem_mergeSort, List.mem_filter, List.mem_dedup]

theorem mem_extra_iff (expected actual : CanonicalMap) (r : String) :
    r ∈ (diff_canonical_config expected actual).extra_in_db ↔
      (r ∈ roots actual ∧ ¬ r ∈ roots expected) := by
  simp [diff_canonical_config, List.mem_mergeSort, List.mem_filter, List.mem_dedup]

theorem mem_mismatches_iff (expected actual : CanonicalMap) (r : String)
    (e a : SeriesSpec) (he : List.lookup r expected = some e)
    (ha : List.lookup r actual = some a) :
    (∃ d, (r, d) ∈ (diff_canonical_config expected actual).mismatches) ↔
      (e.contract_series ≠ a.contract_series ∨ e.optional ≠ a.optional) := by
  have hmem_exp : r ∈ roots expected := lookup_mem_roots he
  have hmem_act : r ∈ roots actual := lookup_mem_roots ha
  constructor
  · rintro ⟨d, hd⟩
    simp only [diff_canonical_config] at hd
    obtain ⟨r', _, hf⟩ := List.mem_filterMap.mp hd
    obtain ⟨hrx, e', a', he', ha', _, hne⟩ := mismatch_entry_eq_some hf
    subst hrx
    rw [he] at he'
    rw [ha] at ha'
    obtain rfl : e = e' := by injection he'
    obtain rfl : a = a' := by injection ha'
    by_contra hcon
    push_neg at hcon
    rw [(field_diffs_isEmpty_iff e a).mpr hcon] at hne
    cases hne
  · intro hdisj
    have hnem : (field_diffs e a).isEmpty = false := by
      rw [Bool.eq_false_iff]
      intro h
      obtain ⟨h1, h2⟩ := (field_diffs_isEmpty_iff e a).mp h
      rcases hdisj with hc | hc
      · exact hc h1
      · exact hc h2
    refine ⟨field_diffs e a, ?_⟩
    simp only [diff_canonical_config]
    apply List.mem_filterMap.mpr
    refine ⟨r, ?_, ?_⟩
    · simp [List.mem_mergeSort, List.mem_filter, List.mem_dedup, hmem_exp, hmem_act]
    · simp only [mismatch_entry, he, ha]
      rw [if_neg (by simp [hnem])]

theorem has_diff_false_iff (expected actual : CanonicalMap) :
    has_diff (diff_canonical_config expected actual) = false ↔
      Agrees expected actual := by
  have hempty : has_diff (diff_canonical_config expected actual) = false ↔
      ((diff_canonical_config expected actual).missing_in_db = [] ∧
        (diff_canonical_config expected actual).extra_in_db = [] ∧
        (diff_canonical_config expected actual).mismatches = []) := by
    simp [has_diff, List.isEmpty_iff, and_assoc]
  rw [hempty]
  constructor
  · rintro ⟨hm, hx, hmm⟩
    constructor
    · intro r
      constructor
      · intro hre
        by_contra hra
        have := (mem_missing_iff expected actual r).mpr ⟨hre, hra⟩
        rw [hm] at this
        cases this
      · intro hra
        by_contra hre
        have := (mem_extra_iff expected actual r).mpr ⟨hra, hre⟩
        rw [hx] at this
        cases this
    · intro r e a he ha
      by_contra hcon
      push_neg at hcon
      have hdisj : e.contract_series ≠ a.contract_series ∨ e.optional ≠ a.optional := by
        by_cases h1 : e.contract_series = a.contract_series
        · exact Or.inr (hcon h1)
        · exact Or.inl h1
      obtain ⟨d, hd⟩ := (mem_mismatches_iff expected actual r e a he ha).mpr hdisj
      rw [hmm] at hd
      cases hd
  · rintro ⟨hkeys, hfields⟩
    refine ⟨?_, ?_, ?_⟩
    · apply List.eq_nil_iff_forall_not_mem.mpr
      intro r hr
      obtain ⟨hre, hra⟩ := (mem_missing_iff expected actual r).mp hr
      exact hra ((hkeys r).mp hre)
    · apply List.eq_nil_iff_forall_not_mem.mpr
      intro r hr
      obtain ⟨hra, hre⟩ := (mem_extra_iff expected actual r).mp hr
      exact hre ((hkeys r).mpr hra)
    · apply List.eq_nil_iff_forall_not_mem.mpr
      intro x hx
      obtain ⟨r, d⟩ := x
      simp only [diff_canonical_config] at hx
      obtain ⟨r', _, hf⟩ := List.mem_filterMap.mp hx
      obtain ⟨hrx, e, a, he, ha, _, hne⟩ := mismatch_entry_eq_some hf
      subst hrx
      obtain ⟨h1, h2⟩ := hfields r' e a he ha
      rw [(field_diffs_isEmpty_iff e a).mpr ⟨h1, h2⟩] at hne
      cases hne

end Canonical

namespace Calendar

/-- A `dim_session` row as inserted by `sync_dim_session_from_data`:
`(trade_date, week, month, quarter, is_holiday)`. `trade_date` is modelled as an
epoch-day integer. -/
structure SessionRow where
  trade_date : Int
  week : Int
  month : Int
  quarter : Int
  is_holiday : Bool
deriving DecidableEq, Repr

/-- The database state touched by `sync_dim_session_from_data`: the rows of
`dim_session` and the `trading_date` column of `g_continuous_bar_daily`. -/
structure DbState where
  dim_session : List SessionRow
  g_continuous_bar_daily : List Int
deriving DecidableEq, Repr

/-- `SELECT COUNT(DISTINCT trading_date) FROM g_continuous_bar_daily WHERE
trading_date NOT IN (SELECT trade_date FROM dim_session)`, as the underlying list
of distinct missing trading dates. -/
def new_trading_dates (s : DbState) : List Int :=
  (s.g_continuous_bar_daily.filter
    (fun d => ¬ d ∈ s.dim_session.map SessionRow.trade_date)).dedup

/-- `sync_dim_session_from_data(con, dry_run)` from `src/utils/calendar.py`: count
the distinct trading dates missing from `dim_session`; on `dry_run` return the
count without changes; if the count is 0 return 0; otherwise
`INSERT OR IGNORE INTO dim_session SELECT DISTINCT trading_date,
EXTRACT(WEEK ...), EXTRACT(MONTH ...), EXTRACT(QUARTER ...), FALSE` for the
missing dates and return the count. The `EXTRACT` expressions are DuckDB builtins,
not repository code, so they are taken as the parameters `week`, `month`,
`quarter`. -/
def sync_dim_session_from_data (week month quarter : Int → Int) (s : DbState)
    (dry_run : Bool) : Int × DbState :=
  let count := (new_trading_dates s).length
  if dry_run then ((count : Int), s)
  else if count = 0 then (0, s)
  else ((count : Int),
    { s with dim_session := s.dim_session ++
        (new_trading_dates s).map (fun d => ⟨d, week d, month d, quarter d, false⟩) })

/-- The non-dry run in closed form: the returned count is the number of missing
distinct trading dates, and exactly those are appended as new rows. -/
theorem sync_apply (week month quarter : Int → Int) (s : DbState) :
    sync_dim_session_from_data week month quarter s false =
      (((new_trading_dates s).length : Int),
        { s with dim_session := s.dim_session ++
            ((new_trading_dates s).map (fun d => ⟨d, week d, month d, quarter d, false⟩)) }) := by
  by_cases hc : (new_trading_dates s).length = 0
  · have hnil := List.length_eq_zero.mp hc
    simp [sync_dim_session_from_data, hc, hnil]
  · simp [sync_dim_session_from_data, hc]

theorem mem_dim_session_after (week month quarter : Int → Int) (s : DbState)
    (d : Int) (hd : d ∈ s.g_continuous_bar_daily) :
    d ∈ ((sync_dim_session_from_data week month quarter s false).2).dim_session.map
      SessionRow.trade_date := by
  rw [sync_apply]
  by_cases hmem : d ∈ s.dim_session.map SessionRow.trade_date
  · simp only [List.map_append, List.mem_append]
    exact Or.inl hmem
  · have hnew : d ∈ new_trading_dates s := by
      rw [new_trading_dates, List.mem_dedup, List.mem_filter]
      refine ⟨hd, ?_⟩
      simpa using hmem
    simp only [List.map_append, List.mem_append, List.map_map]
    refine Or.inr ?_
    exact List.mem_map.mpr ⟨d, hnew, rfl⟩

theorem new_trading_dates_after (week month quarter : Int → Int) (s : DbState) :
    new_trading_dates ((sync_dim_session_from_data week month quarter s false).2) =
      [] := by
  have hbars :
      ((sync_dim_session_from_data week month quarter s false).2).g_continuous_bar_daily =
        s.g_continuous_bar_daily := by
    rw [sync_apply]
  rw [new_trading_dates, List.dedup_eq_nil]
  apply List.eq_nil_iff_forall_not_mem.mpr
  intro d hd
  rw [List.mem_filter] at hd
  obtain ⟨hdm, hnot⟩ := hd
  rw [hbars] at hdm
  have hmem := mem_dim_session_after week month quarter s d hdm
  rw [decide_eq_true_eq] at hnot
  exact hnot hmem

/-- When no trading date is missing, the sync changes nothing and returns 0. -/
theorem sync_of_no_new (week month quarter : Int → Int) (t : DbState)
    (h : new_trading_dates t = []) :
    sync_dim_session_from_data week month quarter t false = (0, t) := by
  simp [sync_dim_session_from_data, h]

end Calendar

/-- C3: After `sync_dim_session_from_data` runs with `dry_run=False`, every
trading date of `g_continuous_bar_daily` is present in `dim_session`; an
immediately following second run inserts nothing and returns 0 (the sync is a
fixed point on unchanged data); and the returned count equals the number of newly
inserted trading dates. -/
theorem C3_sync_superset_fixed_point_count (week month quarter : Int → Int)
    (s : Calendar.DbState) :
    (∀ d ∈ s.g_continuous_bar_daily,
      d ∈ ((Calendar.sync_dim_session_from_data week month quarter s false).2).dim_session.map
          Calendar.SessionRow.trade_date) ∧
    Calendar.sync_dim_session_from_data week month quarter
        ((Calendar.sync_dim_session_from_data week month quarter s false).2) false =
      (0, (Calendar.sync_dim_session_from_data week month quarter s false).2) ∧
    (Calendar.sync_dim_session_from_data week month quarter s false).1 =
      ((Calendar.new_trading_dates s).length : Int) ∧
    ((Calendar.sync_dim_session_from_data week month quarter s false).2).dim_session.length =
      s.dim_session.length + (Calendar.new_trading_dates s).length := by
  refine ⟨Calendar.mem_dim_session_after week month quarter s, ?_, ?_, ?_⟩
  · exact Calendar.sync_of_no_new week month quarter _
      (Calendar.new_trading_dates_after week month quarter s)
  · rw [Calendar.sync_apply]
  · rw [Calendar.sync_apply]
    simp

/-- C7: The calendar synchronizer is strictly additive on `dim_session`: the rows
after a run are the rows before followed by the newly inserted ones, so every row
present before is present afterwards with identical field values, and
`g_continuous_bar_daily` is untouched — regardless of whether its dates still
appear in the source data. -/
theorem C7_sync_never_deletes_or_modifies (week month quarter : Int → Int)
    (s : Calendar.DbState) (dry_run : Bool) :
    (∃ inserted,
      ((Calendar.sync_dim_session_from_data week month quarter s dry_run).2).dim_session =
        s.dim_session ++ inserted) ∧
    (∀ r ∈ s.dim_session,
      r ∈ ((Calendar.sync_dim_session_from_data week month quarter s dry_run).2).dim_session) ∧
    ((Calendar.sync_dim_session_from_data week month quarter s dry_run).2).g_continuous_bar_daily =
      s.g_continuous_bar_daily := by
  cases dry_run with
  | true =>
    refine ⟨⟨[], by simp [Calendar.sync_dim_session_from_data]⟩, ?_, ?_⟩
    · intro r hr
      simp [Calendar.sync_dim_session_from_data]
      exact hr
    · simp [Calendar.sync_dim_session_from_data]
  | false =>
    rw [Calendar.sync_apply]
    refine ⟨⟨_, rfl⟩, ?_, rfl⟩
    intro r hr
    exact List.mem_append_left _ hr

namespace Dates

/-- A proleptic Gregorian calendar date (`datetime.date`). -/
structure Date where
  year : Int
  month : Int
  day : Int
deriving DecidableEq, Repr

/-- Days since 1970-01-01 of a date (civil-from-days inverse of Howard Hinnant's
`days_from_civil`), modelling the day ordinal underlying `datetime.date`. For the
years handled here (4-digit years) every intermediate division is of nonnegative
values. -/
def days_from_civil (y m d : Int) : Int :=
  let yAdj := if m ≤ 2 then y - 1 else y
  let era := (if 0 ≤ yAdj then yAdj else yAdj - 399) / 400
  let yoe := yAdj - era * 400
  let doy := (153 * (if 2 < m then m - 3 else m + 9) + 2) / 5 + d - 1
  let doe := yoe * 365 + yoe / 4 - yoe / 100 + doy
  era * 146097 + doe - 719468

/-- `datetime.date.weekday()`: Monday = 0 … Sunday = 6. 1970-01-01 was a
Thursday (3). -/
def weekday (dt : Date) : Int :=
  (days_from_civil dt.year dt.month dt.day + 3) % 7

/-- `calculate_imm_date(month, year)` from `src/utils/instrument_metadata.py`:
`days_to_add` from the weekday of the first of the month (add `2 - wd` before
Wednesday, `7 - (wd - 2)` after, 0 on Wednesday), then
`first_wednesday = first_day + days_to_add` and `imm_date = first_wednesday + 14`
via `pd.Timedelta`. Since `1 + days_to_add + 14 ≤ 21 < 28`, the timedelta
additions never leave the month, so the result is the same month with day
`1 + days_to_add + 14`. -/
def calculate_imm_date (month year : Int) : Date :=
  let first_day : Date := ⟨year, month, 1⟩
  let wd := weekday first_day
  let days_to_add :=
    if wd < 2 then 2 - wd
    else if wd > 2 then 7 - (wd - 2)
    else 0
  ⟨year, month, 1 + days_to_add + 14⟩

theorem days_from_civil_day (y m d : Int) :
    days_from_civil y m d = days_from_civil y m 1 + (d - 1) := by
  simp only [days_from_civil]
  split_ifs <;> omega

theorem weekday_day (y m d : Int) :
    weekday ⟨y, m, d⟩ = (weekday ⟨y, m, 1⟩ + (d - 1)) % 7 := by
  have h := days_from_civil_day y m d
  simp only [weekday]
  omega

theorem weekday_bounds (dt : Date) : 0 ≤ weekday dt ∧ weekday dt < 7 := by
  simp only [weekday]
  omega

end Dates

/-- C8: For every month 1-12 and 4-digit year, `calculate_imm_date` returns a date
in the same month whose day lies in 15..21 and whose weekday is Wednesday — i.e.
the third Wednesday, obtained as the first Wednesday on or after day 1 plus 14
days (day - 14 is the least day ≥ 1 falling on a Wednesday); in particular the IMM
expiry for month 3, year 2026 is 2026-03-18. -/
theorem C8_calculate_imm_date (month year : Int)
    (h1 : 1 ≤ month) (h2 : month ≤ 12) (h3 : 1000 ≤ year) (h4 : year ≤ 9999) :
    (Dates.calculate_imm_date month year).year = year ∧
    (Dates.calculate_imm_date month year).month = month ∧
    15 ≤ (Dates.calculate_imm_date month year).day ∧
    (Dates.calculate_imm_date month year).day ≤ 21 ∧
    Dates.weekday (Dates.calculate_imm_date month year) = 2 ∧
    Dates.weekday ⟨year, month, (Dates.calculate_imm_date month year).day - 14⟩ = 2 ∧
    (∀ k, 1 ≤ k → k < (Dates.calculate_imm_date month year).day - 14 →
      Dates.weekday ⟨year, month, k⟩ ≠ 2) ∧
    Dates.calculate_imm_date 3 2026 = ⟨2026, 3, 18⟩ := by
  have hconc : Dates.calculate_imm_date 3 2026 = ⟨2026, 3, 18⟩ := by decide
  obtain ⟨hw0, hw7⟩ := Dates.weekday_bounds ⟨year, month, 1⟩
  obtain ⟨dta, hdta⟩ : ∃ t, (if Dates.weekday ⟨year, month, 1⟩ < 2 then
      2 - Dates.weekday ⟨year, month, 1⟩
    else if Dates.weekday ⟨year, month, 1⟩ > 2 then
      7 - (Dates.weekday ⟨year, month, 1⟩ - 2) else 0) = t := ⟨_, rfl⟩
  have hres : Dates.calculate_imm_date month year = ⟨year, month, 1 + dta + 14⟩ := by
    simp only [Dates.calculate_imm_date]
    rw [hdta]
  have hb : 0 ≤ dta ∧ dta ≤ 6 := by
    rw [← hdta]
    split_ifs <;> omega
  have h2 : (Dates.weekday ⟨year, month, 1⟩ + dta) % 7 = 2 := by
    rw [← hdta]
    split_ifs <;> omega
  have h3 : ∀ j, 0 ≤ j → j < dta → (Dates.weekday ⟨year, month, 1⟩ + j) % 7 ≠ 2 := by
    intro j hj1 hj2
    rw [← hdta] at hj2
    split_ifs at hj2 <;> omega
  refine ⟨?_, ?_, ?_, ?_, ?_, ?_, ?_, hconc⟩
  · rw [hres]
  · rw [hres]
  · rw [hres]
    show (15 : Int) ≤ 1 + dta + 14
    omega
  · rw [hres]
    show 1 + dta + 14 ≤ (21 : Int)
    omega
  · rw [hres, Dates.weekday_day]
    omega
  · rw [hres]
    show Dates.weekday ⟨year, month, 1 + dta + 14 - 14⟩ = 2
    rw [Dates.weekday_day]
    omega
  · intro k hk1 hk2
    rw [hres] at hk2
    have hk2' : k < 1 + dta + 14 - 14 := hk2
    rw [Dates.weekday_day]
    have h := h3 (k - 1) (by omega) (by omega)
    omega

/-- Witness for C8 at month 3, year 2026: the IMM expiry is 2026-03-18, a
Wednesday with day in 15..21. -/
theorem C8_calculate_imm_date_witness :
    (Dates.calculate_imm_date 3 2026).year = 2026 ∧
    (Dates.calculate_imm_date 3 2026).month = 3 ∧
    15 ≤ (Dates.calculate_imm_date 3 2026).day ∧
    (Dates.calculate_imm_date 3 2026).day ≤ 21 ∧
    Dates.weekday (Dates.calculate_imm_date 3 2026) = 2 ∧
    Dates.weekday ⟨2026, 3, (Dates.calculate_imm_date 3 2026).day - 14⟩ = 2 ∧
    (∀ k, 1 ≤ k → k < (Dates.calculate_imm_date 3 2026).day - 14 →
      Dates.weekday ⟨2026, 3, k⟩ ≠ 2) ∧
    Dates.calculate_imm_date 3 2026 = ⟨2026, 3, 18⟩ :=
  C8_calculate_imm_date 3 2026 (by decide) (by decide) (by decide) (by decide)

namespace Symbols

/-- `MONTH_CODES`: standard CME futures month codes. -/
def MONTH_CODES : List (Char × Int) :=
  [('F', 1), ('G', 2), ('H', 3), ('J', 4), ('K', 5), ('M', 6),
   ('N', 7), ('Q', 8), ('U', 9), ('V', 10), ('X', 11), ('Z', 12)]

/-- The dict returned by `parse_futures_symbol`. -/
structure ParsedSymbol where
  root : String
  month : Int
  year : Int
  month_code : Char
  native_symbol : String
deriving DecidableEq, Repr

/-- Decimal value of a digit string, `int(year_str)`. -/
def digits_value (cs : List Char) : Int :=
  cs.foldl (fun acc c => acc * 10 + ((c.toNat : Int) - ('0'.toNat : Int))) 0

/-- One iteration of the `for root_len in range(1, 5)` loop in
`parse_futures_symbol`: split off a candidate root of length `root_len` (the loop
breaks when `root_len >= len(native_symbol)`), require at least a month code and
one year digit, an upper-cased month code in `MONTH_CODES` and an all-digit year
string, then resolve the year: 1 digit → `2000 + year_int`; 2 digits ≤ 50 →
`2000 + year_int`; otherwise `1900 + year_int`. -/
def parse_attempt (native_symbol : String) (root_len : Nat) : Option ParsedSymbol :=
  let cs := native_symbol.toList
  if root_len ≥ cs.length then none
  else
    let root := String.mk (cs.take root_len)
    match cs.drop root_len with
    | [] => none
    | mc :: year_chars =>
      if year_chars.length < 1 then none
      else
        let month_code := mc.toUpper
        match MONTH_CODES.lookup month_code with
        | none => none
        | some month =>
          if year_chars.all Char.isDigit then
            let year_int := digits_value year_chars
            let year :=
              if year_chars.length = 1 then 2000 + year_int
              else if year_int ≤ 50 then 2000 + year_int
              else 1900 + year_int
            some ⟨root, month, year, month_code, native_symbol⟩
          else none

/-- `parse_futures_symbol(native_symbol)`: `None` for symbols shorter than 3
characters, else the first successful root length among 1..4. -/
def parse_futures_symbol (native_symbol : String) : Option ParsedSymbol :=
  if native_symbol.length < 3 then none
  else [1, 2, 3, 4].findSome? (parse_attempt native_symbol)

end Symbols

/-- C5: evaluating the parser at the failing input. `parse("ESH6")` returns root
"ES" and month 3 but year 2006 = 2000 + 6, not 2026: the code contradicts its own
docstring (`ESH6 -> {'root': 'ES', 'month': 3, 'year': 2026}` and the comment
"Single digit year (e.g., ESH6 = March 2026)") and the spec's "current decade +
digit". The two-digit path behaves as claimed: `parse("SR3Z25")` gives root "SR3",
month 12, year 2025. -/
theorem C5_code_eval :
    (Symbols.parse_futures_symbol "ESH6").map
        (fun p => (p.root, p.month, p.year)) = some ("ES", 3, 2006) ∧
    (Symbols.parse_futures_symbol "SR3Z25").map
        (fun p => (p.root, p.month, p.year)) = some ("SR3", 12, 2025) ∧
    (Symbols.parse_futures_symbol "ESH6").map (fun p => p.year) ≠ some 2026 := by
  refine ⟨by decide, by decide, by decide⟩

namespace Rolls

/-- A row of the frame handled by `detect_roll_dates` after its filter to one rank
(`rank_df = df[df[symbol_col].str.contains(f".c.\x7brank\x7d")]`): the row's
`trading_date` (epoch day) and underlying `instrument_id`. The claim quantifies
over per-(contract_series, rank) histories, i.e. over such filtered frames. -/
structure Row where
  trading_date : Int
  instrument_id : Int
deriving DecidableEq, Repr

/-- A row of the frame returned by `detect_roll_dates`:
`[date_col, 'old_instrument_id', 'new_instrument_id', 'roll_date']`. -/
structure RollEvent where
  trading_date : Int
  old_instrument_id : Int
  new_instrument_id : Int
  roll_date : Int
deriving DecidableEq, Repr

/-- `rank_df.groupby(date_col)[instrument_id_col].first()`: one entry per distinct
trading date — the first row of each date group — in order of first appearance
(ascending dates once the frame is sorted, which is how `detect_roll_dates`
applies it). -/
def daily_instruments : List Row → List Row
  | [] => []
  | r :: rs =>
    r :: (daily_instruments rs).filter (fun s => ¬ s.trading_date = r.trading_date)

/-- The scan loop of `detect_roll_dates`: walk the daily series keeping
`prev_instrument_id`; whenever the instrument changes, append a roll row whose
date and `roll_date` are the current (new) date. -/
def scan_rolls : Option Int → List Row → List RollEvent
  | _, [] => []
  | prev, r :: rs =>
    match prev with
    | some p =>
      if r.instrument_id ≠ p then
        ⟨r.trading_date, p, r.instrument_id, r.trading_date⟩ ::
          scan_rolls (some r.instrument_id) rs
      else scan_rolls (some r.instrument_id) rs
    | none => scan_rolls (some r.instrument_id) rs

/-- The ascending-by-date ordering used by `rank_df.sort_values(date_col)`. -/
def dateLe (a b : Row) : Prop := a.trading_date ≤ b.trading_date

instance : DecidableRel dateLe := fun a b => by unfold dateLe; infer_instance

instance : IsTotal Row dateLe := ⟨fun a b => le_total a.trading_date b.trading_date⟩

instance : IsTrans Row dateLe := ⟨fun _ _ _ hab hbc => le_trans hab hbc⟩

/-- `detect_roll_dates` on the rank-filtered frame: sort ascending by
`trading_date` (`sort_values`), collapse to one instrument per date
(`groupby(date_col).first()`), then scan adjacent entries for instrument changes.
An empty frame yields an empty result. -/
def detect_roll_dates (rank_df : List Row) : List RollEvent :=
  scan_rolls none (daily_instruments (rank_df.insertionSort dateLe))

/-- The spec's description of the result: one `RollEvent` per adjacent pair of the
daily series whose `instrument_id` differs, with `roll_date` the date of the new
instrument and the old/new ids recorded; pairs with unchanged id (in particular
across date gaps) produce nothing. -/
def adjacent_rolls (daily : List Row) : List RollEvent :=
  (daily.zip daily.tail).filterMap (fun p =>
    if p.2.instrument_id ≠ p.1.instrument_id then
      some ⟨p.2.trading_date, p.1.instrument_id, p.2.instrument_id, p.2.trading_date⟩
    else none)

theorem scan_rolls_eq_adjacent (x : Row) (l : List Row) :
    scan_rolls (some x.instrument_id) l = adjacent_rolls (x :: l) := by
  induction l generalizing x with
  | nil => rfl
  | cons r rs ih =>
    rw [scan_rolls]
    have hadj : adjacent_rolls (x :: r :: rs) =
        (if r.instrument_id ≠ x.instrument_id then
          [⟨r.trading_date, x.instrument_id, r.instrument_id, r.trading_date⟩]
        else []) ++ adjacent_rolls (r :: rs) := by
      rw [adjacent_rolls, adjacent_rolls]
      simp only [List.tail_cons, List.zip_cons_cons, List.filterMap_cons]
      by_cases hne : r.instrument_id ≠ x.instrument_id
      · rw [if_pos hne]
        simp [hne]
      · rw [if_neg hne]
        simp [hne]
    rw [hadj, ← ih r]
    by_cases heq : r.instrument_id = x.instrument_id <;> simp [heq]

theorem detect_eq_adjacent (rank_df : List Row) :
    detect_roll_dates rank_df =
      adjacent_rolls (daily_instruments (rank_df.insertionSort dateLe)) := by
  rw [detect_roll_dates]
  cases hd : daily_instruments (rank_df.insertionSort dateLe) with
  | nil => rfl
  | cons d ds =>
    rw [scan_rolls]
    exact scan_rolls_eq_adjacent d ds

theorem mem_daily_instruments {l : List Row} {x : Row}
    (h : x ∈ daily_instruments l) : x ∈ l := by
  induction l with
  | nil => rw [daily_instruments] at h; cases h
  | cons r rs ih =>
    rw [daily_instruments] at h
    rcases List.mem_cons.mp h with h1 | h1
    · exact h1 ▸ List.mem_cons_self _ _
    · exact List.mem_cons_of_mem _ (ih (List.mem_of_mem_filter h1))

theorem daily_instruments_strict_mono {l : List Row}
    (h : l.Pairwise dateLe) :
    (daily_instruments l).Pairwise (fun a b => a.trading_date < b.trading_date) := by
  induction l with
  | nil => rw [daily_instruments]; exact List.Pairwise.nil
  | cons r rs ih =>
    rw [daily_instruments]
    have htail := ih (List.Pairwise.of_cons h)
    refine List.Pairwise.cons ?_
      (List.Pairwise.sublist (List.filter_sublist (daily_instruments rs)) htail)
    intro x hx
    have hxrs : x ∈ rs := mem_daily_instruments (List.mem_of_mem_filter hx)
    have hle : dateLe r x := List.rel_of_pairwise_cons h hxrs
    have hne : ¬ x.trading_date = r.trading_date := by
      have := List.of_mem_filter hx
      simpa using this
    unfold dateLe at hle
    omega

theorem adjacent_rolls_length (daily : List Row) :
    (adjacent_rolls daily).length =
      (daily.zip daily.tail).countP
        (fun p => p.2.instrument_id ≠ p.1.instrument_id) := by
  rw [adjacent_rolls]
  induction daily.zip daily.tail with
  | nil => rfl
  | cons p ps ih =>
    rw [List.filterMap_cons, List.countP_cons]
    by_cases heq : p.2.instrument_id = p.1.instrument_id <;>
      simp [heq] at ih ⊢ <;> omega

end Rolls

/-- C2: `detect_roll_dates` on a per-rank history equals the adjacent-pair scan of
the per-date daily series of the date-sorted input: the daily series is strictly
ascending in `trading_date`; exactly one `RollEvent` arises per adjacent pair with
differing `instrument_id` (with `roll_date` the new instrument's date and old/new
ids recorded, and no event for unchanged ids — in particular across date gaps);
the event count equals the count of such pairs; a history with at most one
distinct date yields no events; and re-running on unchanged input yields the
identical event list. -/
theorem C2_detect_roll_dates (rank_df : List Rolls.Row) :
    Rolls.detect_roll_dates rank_df =
      Rolls.adjacent_rolls
        (Rolls.daily_instruments (rank_df.insertionSort Rolls.dateLe)) ∧
    (Rolls.daily_instruments (rank_df.insertionSort Rolls.dateLe)).Pairwise
      (fun a b => a.trading_date < b.trading_date) ∧
    (Rolls.detect_roll_dates rank_df).length =
      ((Rolls.daily_instruments (rank_df.insertionSort Rolls.dateLe)).zip
        (Rolls.daily_instruments (rank_df.insertionSort Rolls.dateLe)).tail).countP
        (fun p => p.2.instrument_id ≠ p.1.instrument_id) ∧
    ((Rolls.daily_instruments (rank_df.insertionSort Rolls.dateLe)).length ≤ 1 →
      Rolls.detect_roll_dates rank_df = []) ∧
    Rolls.detect_roll_dates rank_df = Rolls.detect_roll_dates rank_df := by
  have hsorted : (rank_df.insertionSort Rolls.dateLe).Pairwise Rolls.dateLe :=
    List.sorted_insertionSort Rolls.dateLe rank_df
  refine ⟨Rolls.detect_eq_adjacent rank_df,
    Rolls.daily_instruments_strict_mono hsorted, ?_, ?_, rfl⟩
  · rw [Rolls.detect_eq_adjacent, Rolls.adjacent_rolls_length]
  · intro hlen
    rw [Rolls.detect_eq_adjacent]
    cases hd : Rolls.daily_instruments (rank_df.insertionSort Rolls.dateLe) with
    | nil => rfl
    | cons d ds =>
      rw [hd] at hlen
      have hnil : ds = [] := by
        cases ds with
        | nil => rfl
        | cons e es => simp at hlen
      subst hnil
      rfl

namespace Window

/-- `_select_default_window`: when `v_canonical_continuous_bar_daily` exists and has
rows, `(max_d, max_d)` for `max_d = MAX(trading_date)`; `(None, None)` otherwise.
Trading dates are modelled as epoch-day integers; the view is modelled by the list of
its `trading_date` values. -/
def select_default_window (view_exists : Bool) (canonical_dates : List Int) :
    Option Int × Option Int :=
  if view_exists then
    match canonical_dates.max? with
    | none => (none, none)
    | some m => (some m, some m)
  else (none, none)

/-- Window determination in `_run`: `end` is `--end` if given, else the inferred
default (`inferred_end, _ = _select_default_window(con)`); `start` is `--start` if
given, else `None` when `end` is `None`, else
`end - timedelta(days=max(1, int(args.window_days) - 1))`. -/
def compute_window (start_arg end_arg : Option Int) (window_days : Int)
    (view_exists : Bool) (canonical_dates : List Int) : Option Int × Option Int :=
  let e := match end_arg with
    | some x => some x
    | none => (select_default_window view_exists canonical_dates).1
  let s := match start_arg with
    | some x => some x
    | none =>
      match e with
      | none => none
      | some ed => some (ed - max 1 (window_days - 1))
  (s, e)

theorem max?_spec {l : List Int} {m : Int} (h : l.max? = some m) :
    m ∈ l ∧ ∀ d ∈ l, d ≤ m := by
  have : Std.Antisymm (α := Int) (· ≤ ·) := ⟨fun h1 h2 => le_antisymm h1 h2⟩
  rw [List.max?_eq_some_iff] at h
  · exact h
  · exact fun a => le_refl a
  · exact fun a b => max_choice a b
  · exact fun a b c => max_le_iff

end Window

/-- C9 counterexample: with neither `--start` nor `--end` supplied and
`--window-days 1`, the computed window is not 1 calendar day ending at the latest
canonical trading date: with a single canonical trading date 0 the code computes
`start = end - max(1, 0) = -1`, a 2-day window, whereas the claim demands
`start = end - (N - 1) = 0`. -/
theorem C9_counterexample :
    Window.compute_window none none 1 true [0] = (some (-1), some 0) ∧
      Window.compute_window none none 1 true [0] ≠ (some 0, some 0) := by
  constructor
  · decide
  · decide

/-- C9 amended: when neither `--start` nor `--end` is supplied and canonical data
exists, the window ends at the latest trading date present in the canonical daily
view (never the current date) and starts at `end - max(1, N - 1)` for
`N = --window-days`; whenever `N ≥ 2` — in particular for the default `N = 14` —
this is exactly an N-calendar-day window with `start = end - (N - 1)`. -/
theorem C9_default_window (window_days : Int) (dates : List Int) (m : Int)
    (hmax : dates.max? = some m) :
    Window.compute_window none none window_days true dates =
      (some (m - max 1 (window_days - 1)), some m) ∧
    (2 ≤ window_days →
      Window.compute_window none none window_days true dates =
        (some (m - (window_days - 1)), some m)) ∧
    m ∈ dates ∧ (∀ d ∈ dates, d ≤ m) := by
  obtain ⟨hmem, hub⟩ := Window.max?_spec hmax
  refine ⟨?_, ?_, hmem, hub⟩
  · simp [Window.compute_window, Window.select_default_window, hmax]
  · intro h2
    have : max 1 (window_days - 1) = window_days - 1 := by omega
    simp [Window.compute_window, Window.select_default_window, hmax, this]

/-- Witness for the amended C9 at the default `--window-days 14` with two canonical
trading dates: the window is the 14 calendar days ending at the latest date. -/
theorem C9_default_window_witness :
    Window.compute_window none none 14 true [19800, 19813] =
      (some 19800, some 19813) :=
  ((C9_default_window 14 [19800, 19813] 19813 (by decide)).2.1 (by decide))

/-- C6: Reconciliation of the canonical mapping (config vs. `dim_canonical_series`)
reports zero diffs exactly when the two states agree on the root set and, per root,
on `contract_series` and `optional`; a root present on only one side lands in
`missing_in_db` / `extra_in_db`, a shared root with a changed `contract_series` or
`optional` lands in `mismatches`; and a non-empty diff always yields a check with
status FAIL and severity HARD. -/
theorem C6_canonical_reconciliation (expected actual : Canonical.CanonicalMap) :
    (Canonical.has_diff (Canonical.diff_canonical_config expected actual) = false ↔
      Canonical.Agrees expected actual) ∧
    (∀ r, r ∈ (Canonical.diff_canonical_config expected actual).missing_in_db ↔
      (r ∈ Canonical.roots expected ∧ ¬ r ∈ Canonical.roots actual)) ∧
    (∀ r, r ∈ (Canonical.diff_canonical_config expected actual).extra_in_db ↔
      (r ∈ Canonical.roots actual ∧ ¬ r ∈ Canonical.roots expected)) ∧
    (∀ r e a, List.lookup r expected = some e → List.lookup r actual = some a →
      ((∃ d, (r, d) ∈ (Canonical.diff_canonical_config expected actual).mismatches) ↔
        (e.contract_series ≠ a.contract_series ∨ e.optional ≠ a.optional))) ∧
    (Canonical.has_diff (Canonical.diff_canonical_config expected actual) = true →
      (Canonical.canonical_mapping_check expected actual).status =
          Diagnostics.Status.FAIL ∧
        (Canonical.canonical_mapping_check expected actual).severity =
          Diagnostics.Severity.HARD) := by
  refine ⟨Canonical.has_diff_false_iff expected actual,
    Canonical.mem_missing_iff expected actual,
    Canonical.mem_extra_iff expected actual,
    fun r e a he ha => Canonical.mem_mismatches_iff expected actual r e a he ha,
    ?_⟩
  intro h
  simp [Canonical.canonical_mapping_check, h]

/-- C1: For every finished diagnostics run, the report's `overall_status` is FAIL and
the exit code is 2 iff at least one HARD-severity check has status FAIL or ERROR;
otherwise `overall_status` is WARN and the exit code is 0 if at least one warning
issue exists (status WARN, or FAIL/ERROR with severity WARN); otherwise
`overall_status` is PASS and the exit code is 0. -/
theorem C1_overall_status_and_exit_code (checks : List Diagnostics.CheckResult) :
    ((Diagnostics.overall_status checks = Diagnostics.Status.FAIL ∧
        Diagnostics.exit_code checks = 2) ↔
      ∃ c ∈ checks, Diagnostics.IsHardIssue c) ∧
    ((¬ ∃ c ∈ checks, Diagnostics.IsHardIssue c) →
      ((Diagnostics.overall_status checks = Diagnostics.Status.WARN ∧
          Diagnostics.exit_code checks = 0) ↔
        ∃ c ∈ checks, Diagnostics.IsWarnIssue c)) ∧
    ((¬ ∃ c ∈ checks, Diagnostics.IsHardIssue c) →
      (¬ ∃ c ∈ checks, Diagnostics.IsWarnIssue c) →
      (Diagnostics.overall_status checks = Diagnostics.Status.PASS ∧
        Diagnostics.exit_code checks = 0)) := by
  have hard := Diagnostics.hard_failures_pos_iff checks
  have warn := Diagnostics.warnings_pos_iff checks
  refine ⟨?_, ?_, ?_⟩
  · constructor
    · rintro ⟨hstat, _⟩
      by_contra hno
      have h0 : Diagnostics.hard_failures checks = 0 := by
        by_contra hne; exact hno (hard.mp hne)
      simp [Diagnostics.overall_status, h0] at hstat
      split at hstat <;> simp_all
    · intro h
      have hne := hard.mpr h
      constructor
      · simp [Diagnostics.overall_status, hne]
      · simp [Diagnostics.exit_code, Nat.pos_of_ne_zero hne]
  · intro hno
    have h0 : Diagnostics.hard_failures checks = 0 := by
      by_contra hne; exact hno (hard.mp hne)
    constructor
    · rintro ⟨hstat, _⟩
      by_contra hnow
      have w0 : Diagnostics.warnings checks = 0 := by
        by_contra wne; exact hnow (warn.mp wne)
      simp [Diagnostics.overall_status, h0, w0] at hstat
    · intro h
      have wne := warn.mpr h
      refine ⟨?_, ?_⟩
      · simp [Diagnostics.overall_status, h0, wne]
      · simp [Diagnostics.exit_code, h0]
  · intro hno hnow
    have h0 : Diagnostics.hard_failures checks = 0 := by
      by_contra hne; exact hno (hard.mp hne)
    have w0 : Diagnostics.warnings checks = 0 := by
      by_contra wne; exact hnow (warn.mp wne)
    refine ⟨?_, ?_⟩
    · simp [Diagnostics.overall_status, h0, w0]
    · simp [Diagnostics.exit_code, h0]

/-- C10: A run in which every produced check has status SKIP yields
`overall_status` PASS and exit code 0: SKIP counts toward neither hard failures
nor warnings. -/
theorem C10_all_skip_is_pass (checks : List Diagnostics.CheckResult)
    (h : ∀ c ∈ checks, c.status = Diagnostics.Status.SKIP) :
    Diagnostics.overall_status checks = Diagnostics.Status.PASS ∧
      Diagnostics.exit_code checks = 0 := by
  have h0 : Diagnostics.hard_failures checks = 0 := by
    rw [Diagnostics.hard_failures, List.countP_eq_zero]
    intro c hc
    have := h c hc
    simp [this]
  have w0 : Diagnostics.warnings checks = 0 := by
    rw [Diagnostics.warnings, List.countP_eq_zero]
    intro c hc
    have := h c hc
    simp [this]
  exact ⟨by simp [Diagnostics.overall_status, h0, w0],
    by simp [Diagnostics.exit_code, h0]⟩

/-- C4 counterexample: the claim that an exception raised while evaluating one
check is caught and reported as status ERROR, with the remaining checks still
executing and appearing in the report, is false. At the concrete run whose second
check raises "boom", `_run` produces no check list at all (the exception
propagates), so no report exists in which the remaining check appears, and `main`
returns 1. -/
theorem C4_counterexample :
    Diagnostics.run_checks
        [Except.ok ⟨"schema.table.dim_session", "Table exists: dim_session",
            Diagnostics.Status.PASS, Diagnostics.Severity.HARD, "ok"⟩,
          Except.error "boom",
          Except.ok ⟨"integrity.duplicates.f_quote_l1",
            "Duplicates absent: f_quote_l1 on (ts_event, instrument_id)",
            Diagnostics.Status.SKIP, Diagnostics.Severity.INFO, "table not present"⟩] =
      Except.error "boom" ∧
    Diagnostics.main_exit
        [Except.ok ⟨"schema.table.dim_session", "Table exists: dim_session",
            Diagnostics.Status.PASS, Diagnostics.Severity.HARD, "ok"⟩,
          Except.error "boom",
          Except.ok ⟨"integrity.duplicates.f_quote_l1",
            "Duplicates absent: f_quote_l1 on (ts_event, instrument_id)",
            Diagnostics.Status.SKIP, Diagnostics.Severity.INFO, "table not present"⟩] = 1 ∧
    ¬ ∃ checks, Diagnostics.run_checks
        [Except.ok ⟨"schema.table.dim_session", "Table exists: dim_session",
            Diagnostics.Status.PASS, Diagnostics.Severity.HARD, "ok"⟩,
          Except.error "boom",
          Except.ok ⟨"integrity.duplicates.f_quote_l1",
            "Duplicates absent: f_quote_l1 on (ts_event, instrument_id)",
            Diagnostics.Status.SKIP, Diagnostics.Severity.INFO, "table not present"⟩] =
      Except.ok checks := by
  refine ⟨rfl, rfl, ?_⟩
  rintro ⟨cs, h⟩
  simp [Diagnostics.run_checks] at h

/-- C4 amended: an exception raised while evaluating a check is not handled per
check; it aborts the batch. If every check before the failing one succeeded, the
run yields that exception (no report is produced, later checks never run) and
`main` catches it and returns exit code 1. -/
theorem C4_exception_aborts_batch (pre : List Diagnostics.CheckStep) (e : String)
    (post : List Diagnostics.CheckStep)
    (h : ∀ s ∈ pre, ∃ c, s = Except.ok c) :
    Diagnostics.run_checks (pre ++ Except.error e :: post) = Except.error e ∧
      Diagnostics.main_exit (pre ++ Except.error e :: post) = 1 := by
  have key : Diagnostics.run_checks (pre ++ Except.error e :: post) = Except.error e := by
    induction pre with
    | nil => simp [Diagnostics.run_checks]
    | cons s rest ih =>
      obtain ⟨c, hc⟩ := h s (by simp)
      subst hc
      have hrest := ih (fun t ht => h t (by simp [ht]))
      simp [Diagnostics.run_checks, hrest]
  exact ⟨key, by simp [Diagnostics.main_exit, Diagnostics.run_diagnostics, key]⟩

/-- Witness for the amended C4 at a concrete three-step run whose middle check
raises. -/
theorem C4_exception_aborts_batch_witness :
    Diagnostics.run_checks
        ([Except.ok ⟨"schema.table.g_continuous_bar_daily",
            "Table exists: g_continuous_bar_daily",
            Diagnostics.Status.PASS, Diagnostics.Severity.HARD, "ok"⟩] ++
          Except.error "duckdb.IOException" ::
            [Except.ok ⟨"futures.validator", "Futures validators",
              Diagnostics.Status.SKIP, Diagnostics.Severity.INFO,
              "f_fut_quote_l1 not present"⟩]) =
      Except.error "duckdb.IOException" ∧
    Diagnostics.main_exit
        ([Except.ok ⟨"schema.table.g_continuous_bar_daily",
            "Table exists: g_continuous_bar_daily",
            Diagnostics.Status.PASS, Diagnostics.Severity.HARD, "ok"⟩] ++
          Except.error "duckdb.IOException" ::
            [Except.ok ⟨"futures.validator", "Futures validators",
              Diagnostics.Status.SKIP, Diagnostics.Severity.INFO,
              "f_fut_quote_l1 not present"⟩]) = 1 :=
  C4_exception_aborts_batch _ "duckdb.IOException" _
    (by intro s hs; simp at hs; exact ⟨_, hs⟩)

/-- Witness for C10 at a concrete one-check report consisting of a SKIP check. -/
theorem C10_all_skip_is_pass_witness :
    Diagnostics.overall_status
        [⟨"options.validator", "Options validators", Diagnostics.Status.SKIP,
          Diagnostics.Severity.INFO, "f_quote_l1 not present"⟩] =
        Diagnostics.Status.PASS ∧
      Diagnostics.exit_code
        [⟨"options.validator", "Options validators", Diagnostics.Status.SKIP,
          Diagnostics.Severity.INFO, "f_quote_l1 not present"⟩] = 0 :=
  C10_all_skip_is_pass _ (by intro c hc; simp at hc; simp [hc])
